import Mathlib

/-!
Verification of the filter/aggregation pipeline of `src/search_scopus.py`
(toc-scopus-search).

The Python source is shallowly embedded below.  A Scopus abstract record is
modelled by the `Record` structure; attributes that may be `None` in Python
are `Option`-typed, and Python truthiness (`if x`) on a string, list or
option value is translated explicitly.  A Python `dict` with string keys is
modelled as an association list `List (String × Nat)` in insertion order;
subscript assignment on a missing key (a Python `KeyError`) is modelled by
returning `Except.error`, and every function that can hit such an error is
`Except`-valued.
-/

/-- One entry of a record's `subject_areas` attribute.  Only the
`abbreviation` field is read by the source. -/
structure SubjArea where
  abbreviation : String
  deriving DecidableEq, Repr

/-- A Scopus abstract record, restricted to the attributes the pipeline
reads: `language`, `subtype`, `subject_areas`, `abstract`, `authkeywords`,
`doi`, `title`.  In pybliometrics, `abstract` is an optional string and
`authkeywords` is an optional list of keyword strings (see the join
`'; '.join(ab.authkeywords)` at src/search_scopus.py:136). -/
structure Record where
  title : Option String
  doi : Option String
  language : Option String
  subtype : Option String
  subject_areas : List SubjArea
  abstract : Option String
  authkeywords : Option (List String)
  deriving DecidableEq, Repr

/-- Returns `true` on an `Except.error`, `false` on an `Except.ok`. -/
def exceptIsError {ε α : Type} : Except ε α → Bool
  | Except.error _ => true
  | Except.ok _ => false

deriving instance DecidableEq for Except

/-- Python's `areas[key] += 1` on a dict modelled as an insertion-ordered
association list: update the value at `key` in place, or fail with a
`KeyError` when `key` is absent (src/search_scopus.py:25). -/
def dictIncr : List (String × Nat) → String → Except String (List (String × Nat))
  | [], key => Except.error ("KeyError: " ++ key)
  | (k, v) :: rest, key =>
    if k = key then Except.ok ((k, v + 1) :: rest)
    else
      match dictIncr rest key with
      | Except.ok rest2 => Except.ok ((k, v) :: rest2)
      | Except.error e => Except.error e

/-- The inner loop `for area in ab.subject_areas: areas[area.abbreviation] += 1`
of `_filter_by_subject_areas` (src/search_scopus.py:24-25). -/
def incrAreas (areas : List (String × Nat)) : List SubjArea → Except String (List (String × Nat))
  | [] => Except.ok areas
  | area :: rest =>
    match dictIncr areas area.abbreviation with
    | Except.ok areas2 => incrAreas areas2 rest
    | Except.error e => Except.error e

/-- The record-processing loop of `_filter_by_subject_areas`
(src/search_scopus.py:18-25): a record whose `subject_areas` intersect the
chosen abbreviations is kept; otherwise every entry of its area list
increments the `areas` dict. -/
def filterBySubjectAreasAux (subject_areas_chosen : List String) :
    List Record → List (String × Nat) → Except String (List Record × List (String × Nat))
  | [], areas => Except.ok ([], areas)
  | ab :: rest, areas =>
    if ab.subject_areas.any (fun area => subject_areas_chosen.contains area.abbreviation) then
      match filterBySubjectAreasAux subject_areas_chosen rest areas with
      | Except.ok (kept, areas2) => Except.ok (ab :: kept, areas2)
      | Except.error e => Except.error e
    else
      match incrAreas areas ab.subject_areas with
      | Except.ok areas2 => filterBySubjectAreasAux subject_areas_chosen rest areas2
      | Except.error e => Except.error e

/-- The function `_filter_by_subject_areas` (src/search_scopus.py:10-26).  The counts
dict is initialised by `dict.fromkeys(subject_areas, 0)`; `subject_areas`
is the key list of the configured subject-area universe. -/
def filterBySubjectAreas (abstracts : List Record) (subject_areas : List String)
    (subject_areas_chosen : List String) :
    Except String (List Record × List (String × Nat)) :=
  filterBySubjectAreasAux subject_areas_chosen abstracts
    (subject_areas.map (fun a => (a, 0)))

/-- Whether `pat` is an initial segment of `l`. -/
def charsStartWith : List Char → List Char → Bool
  | [], _ => true
  | _ :: _, [] => false
  | p :: ps, c :: cs => p == c && charsStartWith ps cs

/-- Whether `pat` occurs contiguously inside `l`. -/
def charsContain (pat : List Char) : List Char → Bool
  | [] => pat.isEmpty
  | c :: cs => charsStartWith pat (c :: cs) || charsContain pat cs

/-- Python's `pat in hay` on two strings: contiguous-substring containment. -/
def strContainsSub (hay pat : String) : Bool :=
  charsContain pat.toList hay.toList

/-- Python's `sep.join(parts)`. -/
def strJoin (sep : String) : List String → String
  | [] => ""
  | [s] => s
  | s :: rest => s ++ sep ++ strJoin sep rest

/-- One element of the tuple `(ab.abstract, ab.authkeywords)` at
src/search_scopus.py:44-47: either the abstract string or the author-keyword
list.  Python's `in` behaves differently on the two: substring containment
on a string, element equality on a list. -/
inductive AbPart where
  | text (s : String)
  | kws (l : List String)
  deriving DecidableEq, Repr

/-- Python's `filter(None, (ab.abstract, ab.authkeywords))`
(src/search_scopus.py:42-48): drop the parts that are Python-falsy
(`None`, the empty string, the empty list). -/
def abParts (ab : Record) : List AbPart :=
  (match ab.abstract with
   | some s => if s = "" then [] else [AbPart.text s]
   | none => []) ++
  (match ab.authkeywords with
   | some l => if l = [] then [] else [AbPart.kws l]
   | none => [])

/-- Python's `methodology in ab_part` (src/search_scopus.py:42): substring test when
the part is the abstract string, exact membership when it is the keyword
list. -/
def partContains (methodology : String) : AbPart → Bool
  | AbPart.text s => strContainsSub s methodology
  | AbPart.kws l => l.contains methodology

/-- The keep condition of `_filter_by_methodologies`
(src/search_scopus.py:39-50): Python evaluates
`any([m for m in methodologies if any(m in part for part in parts)])`, i.e.
it builds the list of matching methodology strings and then asks whether
any element of that list is truthy (a non-empty string). -/
def methodologyKeeps (methodologies : List String) (ab : Record) : Bool :=
  (methodologies.filter
    (fun m => (abParts ab).any (partContains m))).any (fun m => !(m == ""))

/-- The function `_filter_by_methodologies` (src/search_scopus.py:28-52). -/
def filterByMethodologies (abstracts : List Record) (methodologies : List String) :
    List Record :=
  if methodologies.isEmpty then abstracts
  else abstracts.filter (methodologyKeeps methodologies)

/-- The DOI-exclusion comprehension `[ab for ab in abstracts if ab.doi not in dois]`
(src/search_scopus.py:91).  `dois` holds DOI strings, so a record whose
`doi` is `None` can never be a member of it. -/
def filterByDois (abstracts : List Record) (dois : List String) : List Record :=
  abstracts.filter (fun ab =>
    match ab.doi with
    | some d => !(dois.contains d)
    | none => true)

/-- The six values of the `papers_count` dict of `_filter_abstracts`, keyed
by the fixed filter-column names in order (src/search_scopus.py:70-92). -/
structure PapersCount where
  raw : Nat
  language : Nat
  doctype : Nat
  subjectArea : Nat
  methodology : Nat
  doi : Nat
  deriving DecidableEq, Repr

/-- The all-zero stage-count row. -/
def PapersCount.zero : PapersCount :=
  { raw := 0, language := 0, doctype := 0, subjectArea := 0, methodology := 0, doi := 0 }

/-- The function `_filter_abstracts` (src/search_scopus.py:64-94): the ordered filter
chain with its per-stage population counts.  The subject-area stage can
raise a `KeyError`, hence the `Except`. -/
def filterAbstracts (abstracts : List Record) (subject_areas : List String)
    (subject_areas_chosen : List String) (methodologies : List String)
    (dois : List String) :
    Except String (List Record × PapersCount × List (String × Nat)) :=
  let c0 := abstracts.length
  let abs1 := abstracts.filter (fun ab => ab.language == some "eng")
  let c1 := abs1.length
  let abs2 := abs1.filter (fun ab => ab.subtype == some "ar")
  let c2 := abs2.length
  match filterBySubjectAreas abs2 subject_areas subject_areas_chosen with
  | Except.error e => Except.error e
  | Except.ok (abs3, areas) =>
    let c3 := abs3.length
    let abs4 := if methodologies.isEmpty then abs3 else filterByMethodologies abs3 methodologies
    let c4 := abs4.length
    let abs5 := filterByDois abs4 dois
    let c5 := abs5.length
    Except.ok (abs5,
      { raw := c0, language := c1, doctype := c2, subjectArea := c3,
        methodology := c4, doi := c5 },
      areas)

/-- The search key of `_main_search` (src/search_scopus.py:101):
`REFTITLE("paper")` when a truthy paper title was given, otherwise
`TITLE-ABS-KEY("theory")`. -/
def searchKey (theory : String) (paper : Option String) : String :=
  match paper with
  | some p => if p = "" then "TITLE-ABS-KEY(\"" ++ theory ++ "\")"
              else "REFTITLE(\"" ++ p ++ "\")"
  | none => "TITLE-ABS-KEY(\"" ++ theory ++ "\")"

/-- One rendered interval of the year clause (src/search_scopus.py:106). -/
def intervalClause (interval : Int × Int) : String :=
  "(PUBYEAR AFT " ++ toString (interval.1 - 1) ++
    " AND PUBYEAR BEF " ++ toString (interval.2 + 1) ++ ")"

/-- The query string built by `_main_search` (src/search_scopus.py:101-108):
the search key and the `' OR '`-joined interval clauses, `' AND '`-joined. -/
def mainSearchQuery (theory : String) (paper : Option String)
    (publication_years : List (Int × Int)) : String :=
  strJoin " AND "
    [searchKey theory paper, strJoin " OR " (publication_years.map intervalClause)]

/-- The truthiness-based placeholder rule of `_process_abstracts`
(src/search_scopus.py:124-153): a missing or empty string field is
projected as the literal `NA`. -/
def projStr (v : Option String) : String :=
  match v with
  | some s => if s = "" then "NA" else s
  | none => "NA"

/-- A master-table row, restricted to the two projected columns the claims
under study read: the `Title` column and the `DOI` column
(src/search_scopus.py:126-128). -/
structure MasterRow where
  title : String
  doi : String
  deriving DecidableEq, Repr

/-- The projection of one record to its master-table row
(src/search_scopus.py:124-153), restricted to the modelled columns. -/
def projectRecord (ab : Record) : MasterRow :=
  { title := projStr ab.title, doi := projStr ab.doi }

/-- The row-appending loop of `_process_abstracts`
(src/search_scopus.py:123-155): one appended row per surviving record, in
order. -/
def processAbstracts (abstracts : List Record) : List MasterRow :=
  abstracts.map projectRecord

/-- The call `results_df.drop_duplicates(subset=['DOI'])` (src/search_scopus.py:284)
with pandas' default `keep='first'`: scan the rows in order, keep a row
only when its `DOI` value has not been seen before. -/
def dropDuplicatesByDoi (seen : List String) : List MasterRow → List MasterRow
  | [] => []
  | row :: rest =>
    if row.doi ∈ seen then dropDuplicatesByDoi seen rest
    else row :: dropDuplicatesByDoi (row.doi :: seen) rest

/-- The summary table derived from the master table
(src/search_scopus.py:283-284). -/
def summaryOfMaster (master : List MasterRow) : List MasterRow :=
  dropDuplicatesByDoi [] master

/-- Python's `paper if paper else 'NA'` (src/search_scopus.py:191): the key-paper
column value of a query. -/
def paperOrNA (paper : Option String) : String :=
  match paper with
  | some p => if p = "" then "NA" else p
  | none => "NA"

/-- One row of the counts table: the search-type columns plus the six stage
counts (src/search_scopus.py:258-260). -/
structure CountsRow where
  theory : String
  paper : String
  counts : PapersCount
  deriving DecidableEq, Repr

/-- One row of the areas table: the search-type columns plus the exclusion
counts in subject-area-universe order (src/search_scopus.py:254,262-264;
the abbreviation-to-description translation only relabels the columns, so
the row is modelled by its count values). -/
structure AreasRow where
  theory : String
  paper : String
  values : List Nat
  deriving DecidableEq, Repr

/-- The three harvest-scoped aggregate tables of `main`
(src/search_scopus.py:244-246). -/
structure Tables where
  master : List MasterRow
  counts : List CountsRow
  areas : List AreasRow
  deriving DecidableEq, Repr

/-- One iteration of the query loop of `main`
(src/search_scopus.py:249-281) applied to the records fetched for the
query: run `_filter_abstracts`, append one projected master row per
surviving record, append one counts row and one areas row.  Fetching and
the pandas mechanics are outside the model; the appends mirror the
`pd.concat(..., axis=0)` calls. -/
def aggregateStep (subject_areas : List String) (subject_areas_chosen : List String)
    (methodologies : List String) (dois : List String) (t : Tables)
    (theory : String) (paper : Option String) (fetched : List Record) :
    Except String Tables :=
  match filterAbstracts fetched subject_areas subject_areas_chosen methodologies dois with
  | Except.error e => Except.error e
  | Except.ok (survivors, pc, areasDict) =>
    Except.ok
      { master := t.master ++ processAbstracts survivors,
        counts := t.counts ++ [{ theory := theory, paper := paperOrNA paper, counts := pc }],
        areas := t.areas ++
          [{ theory := theory, paper := paperOrNA paper,
             values := areasDict.map Prod.snd }] }

/-! ## Concrete inputs used by counterexamples and witnesses -/

/-- A record that survives every stage: English article in area `BUSI`
with a DOI. -/
def recA : Record :=
  { title := some "T", doi := some "10.1/a", language := some "eng",
    subtype := some "ar", subject_areas := [{ abbreviation := "BUSI" }],
    abstract := some "uses EEG data", authkeywords := some ["EEG"] }

/-- An English article without a DOI. -/
def recNoDoi1 : Record :=
  { title := some "A", doi := none, language := some "eng", subtype := some "ar",
    subject_areas := [{ abbreviation := "BUSI" }], abstract := some "x",
    authkeywords := some ["k"] }

/-- A second, distinct English article without a DOI. -/
def recNoDoi2 : Record :=
  { recNoDoi1 with title := some "B" }

/-- A record whose subject-area list carries the abbreviation `MEDI`
twice (Scopus area lists repeat an abbreviation when a record is tagged
with several specific codes of the same area). -/
def recDupArea : Record :=
  { recA with
    subject_areas := [{ abbreviation := "MEDI" }, { abbreviation := "MEDI" }] }

/-- A record whose only author keyword strictly contains the term `EEG`,
and whose abstract is absent. -/
def recKwOnly : Record :=
  { recA with abstract := none, authkeywords := some ["EEG study"] }

/-- A record carrying a subject-area abbreviation outside the configured
universe. -/
def recBadArea : Record :=
  { recA with subject_areas := [{ abbreviation := "XXXX" }] }

/-! ## C4: the DOI-exclusion stage -/

/-- C4.  The DOI-exclusion stage never drops a record whose DOI is absent,
and drops exactly the records whose present DOI appears in the excluded
list: a record is in the stage's output iff it is in the input and either
has no DOI or has a DOI outside `dois`. -/
theorem doi_stage_membership (abstracts : List Record) (dois : List String)
    (r : Record) :
    r ∈ filterByDois abstracts dois ↔
      r ∈ abstracts ∧ (r.doi = none ∨ ∃ d, r.doi = some d ∧ d ∉ dois) := by
  unfold filterByDois
  rw [List.mem_filter]
  constructor
  · rintro ⟨hmem, hkeep⟩
    refine ⟨hmem, ?_⟩
    cases hdoi : r.doi with
    | none => exact Or.inl rfl
    | some d =>
      refine Or.inr ⟨d, rfl, ?_⟩
      rw [hdoi] at hkeep
      simp only [Bool.not_eq_true'] at hkeep
      intro hd
      rw [show dois.contains d = true from List.elem_iff.mpr hd] at hkeep
      simp at hkeep
  · rintro ⟨hmem, hdoi⟩
    refine ⟨hmem, ?_⟩
    rcases hdoi with hnone | ⟨d, hd, hnot⟩
    · rw [hnone]
    · rw [hd]
      simp only [Bool.not_eq_true']
      exact Bool.eq_false_iff.mpr (fun hc => hnot (List.elem_iff.mp hc))

/-! ## C5: the query builder -/

/-- The year clause exactly as the claim words it: the disjunction over the
intervals of `(PUBYEAR AFT start-1 AND PUBYEAR BEF end+1)`, rendered
independently of the embedded `strJoin`/`map` pipeline. -/
def claimYearDisjunction : List (Int × Int) → String
  | [] => ""
  | [interval] =>
    "(PUBYEAR AFT " ++ toString (interval.1 - 1) ++
      " AND PUBYEAR BEF " ++ toString (interval.2 + 1) ++ ")"
  | interval :: rest =>
    "(PUBYEAR AFT " ++ toString (interval.1 - 1) ++
      " AND PUBYEAR BEF " ++ toString (interval.2 + 1) ++ ")" ++
      " OR " ++ claimYearDisjunction rest

/-- C5 counterexample.  Building a query over an empty interval list does
not fail: `_main_search` silently produces the topic clause followed by
`" AND "` and an empty year clause (the claim says an empty interval list
is fatal). -/
theorem empty_intervals_build_query_without_error :
    mainSearchQuery "Global Workspace" none [] =
      "TITLE-ABS-KEY(\"Global Workspace\") AND " := by
  rfl

/-- C5 amended.  For every interval list (the empty one included) the
built query is the topic clause joined by `" AND "` with the disjunction
over intervals of `(PUBYEAR AFT start-1 AND PUBYEAR BEF end+1)`; with no
intervals the year side of the conjunction is simply empty, with no error
raised. -/
theorem main_search_query_eq_topic_and_year_disjunction (theory : String)
    (paper : Option String) (publication_years : List (Int × Int)) :
    mainSearchQuery theory paper publication_years =
      searchKey theory paper ++ " AND " ++ claimYearDisjunction publication_years := by
  unfold mainSearchQuery
  have hyear : strJoin " OR " (publication_years.map intervalClause) =
      claimYearDisjunction publication_years := by
    induction publication_years with
    | nil => rfl
    | cons iv rest ih =>
      cases rest with
      | nil => rfl
      | cons iv2 rest2 =>
        simp only [List.map, strJoin, claimYearDisjunction, intervalClause] at *
        rw [ih]
  rw [hyear]
  rfl

/-! ## C7: idempotence of the methodology filter -/

/-- Filtering twice with the same predicate filters once. -/
theorem filter_idem {α : Type} (p : α → Bool) (l : List α) :
    (l.filter p).filter p = l.filter p := by
  induction l with
  | nil => rfl
  | cons a rest ih =>
    by_cases h : p a = true
    · simp [List.filter_cons, h, ih]
    · simp only [Bool.not_eq_true] at h
      simp [List.filter_cons, h, ih]

/-- C7.  The methodology filter is idempotent: applying it to its own
output with the same term list returns that output unchanged. -/
theorem methodology_filter_idempotent (abstracts : List Record)
    (methodologies : List String) :
    filterByMethodologies (filterByMethodologies abstracts methodologies) methodologies =
      filterByMethodologies abstracts methodologies := by
  unfold filterByMethodologies
  by_cases h : methodologies.isEmpty = true
  · simp [h]
  · simp only [Bool.not_eq_true] at h
    simp [h, filter_idem]

/-! ## C1: summary deduplication and absent DOIs -/

/-- C1 counterexample.  Two distinct master rows whose source records lack
a DOI are both projected with the `DOI` column `NA`
(src/search_scopus.py:128), so `drop_duplicates(subset=['DOI'])`
(src/search_scopus.py:284) collapses them: the master table has two
absent-DOI rows but the summary keeps only the first. -/
theorem summary_dedup_collapses_two_absent_doi_rows :
    recNoDoi1.doi = none ∧ recNoDoi2.doi = none ∧ recNoDoi1 ≠ recNoDoi2 ∧
    (processAbstracts [recNoDoi1, recNoDoi2]).length = 2 ∧
    summaryOfMaster (processAbstracts [recNoDoi1, recNoDoi2]) =
      [{ title := "A", doi := "NA" }] := by
  decide

/-- Rows whose `DOI` column value is already in `seen` never survive the
deduplication scan. -/
theorem countP_dropDuplicatesByDoi_of_seen (key : String) (l : List MasterRow) :
    ∀ seen : List String, key ∈ seen →
      (dropDuplicatesByDoi seen l).countP (fun row => row.doi == key) = 0 := by
  induction l with
  | nil => intro seen _; rfl
  | cons row rest ih =>
    intro seen hseen
    unfold dropDuplicatesByDoi
    by_cases hmem : row.doi ∈ seen
    · simp only [hmem, if_true]
      exact ih seen hseen
    · have hne : (row.doi == key) = false := by
        cases heq : row.doi == key with
        | false => rfl
        | true => exact absurd (by rw [eq_of_beq heq]; exact hseen) hmem
      simp only [hmem, if_false, List.countP_cons, hne]
      simp [ih (row.doi :: seen) (List.mem_cons_of_mem _ hseen)]

/-- At most one row with any given `DOI` column value survives the
deduplication scan. -/
theorem countP_dropDuplicatesByDoi_le_one (key : String) (l : List MasterRow) :
    ∀ seen : List String,
      (dropDuplicatesByDoi seen l).countP (fun row => row.doi == key) ≤ 1 := by
  induction l with
  | nil => intro seen; exact Nat.zero_le 1
  | cons row rest ih =>
    intro seen
    unfold dropDuplicatesByDoi
    by_cases hmem : row.doi ∈ seen
    · simp only [hmem, if_true]
      exact ih seen
    · simp only [hmem, if_false, List.countP_cons]
      cases heq : row.doi == key with
      | false => simp [heq, ih (row.doi :: seen)]
      | true =>
        have h0 := countP_dropDuplicatesByDoi_of_seen key rest (row.doi :: seen)
          (by rw [eq_of_beq heq]; exact List.mem_cons_self _ _)
        simp [heq, h0]

/-- C1 amended.  Because an absent DOI is projected as the literal `NA`,
the summary deduplication collapses all absent-DOI master rows together:
the summary table contains at most one row whose `DOI` column is `NA`
(rather than one row per absent-DOI master row, as the claim stated). -/
theorem summary_has_at_most_one_absent_doi_row (master : List MasterRow) :
    (summaryOfMaster master).countP (fun row => row.doi == "NA") ≤ 1 := by
  unfold summaryOfMaster
  exact countP_dropDuplicatesByDoi_le_one "NA" master []

/-! ## C2: per-entry versus per-distinct-abbreviation histogram increments -/

/-- C2 (code bug).  A record dropped at the subject-area stage whose area
list repeats one abbreviation increments that abbreviation's histogram
entry once per list entry, not once per distinct abbreviation: the record
`recDupArea` carries the single distinct abbreviation `MEDI`, yet its
exclusion raises the `MEDI` count by 2 (src/search_scopus.py:24-25 loops
over the raw area list with no deduplication, contradicting the claim and
the function's own docstring, which promises a count of excluded papers
per area). -/
theorem subject_area_histogram_double_counts_repeated_abbreviation :
    (recDupArea.subject_areas.map SubjArea.abbreviation).dedup = ["MEDI"] ∧
    filterBySubjectAreas [recDupArea] ["MEDI", "PSYC"] ["PSYC"] =
      Except.ok ([], [("MEDI", 2), ("PSYC", 0)]) := by
  decide

/-! ## C3: the methodology keep condition -/

/-- The methodology keep condition exactly as the claim words it: some
term occurs as a case-sensitive literal substring of the record's abstract
text or of the record's concatenated author-keyword text (the repo's own
keyword rendering joins with `; `, src/search_scopus.py:136). -/
def claimMethodologyKeep (methodologies : List String) (r : Record) : Bool :=
  methodologies.any (fun m =>
    (match r.abstract with
     | some s => strContainsSub s m
     | none => false) ||
    (match r.authkeywords with
     | some l => strContainsSub (strJoin "; " l) m
     | none => false))

/-- C3 counterexample.  The term `EEG` is a substring of the concatenated
author-keyword text of `recKwOnly` (its only keyword is `EEG study`), so
the claim's condition keeps the record; the code drops it, because Python's
`methodology in ab.authkeywords` on a keyword list tests exact membership,
not substring containment. -/
theorem methodology_keyword_substring_claim_fails :
    claimMethodologyKeep ["EEG"] recKwOnly = true ∧
    filterByMethodologies [recKwOnly] ["EEG"] = [] := by
  decide

/-- The corrected keep condition: some non-empty term is a substring of
the (present, non-empty) abstract text, or is exactly equal to one of the
author keywords. -/
def methodologyKeepSpec (methodologies : List String) (r : Record) : Prop :=
  ∃ m ∈ methodologies, m ≠ "" ∧
    ((∃ s, r.abstract = some s ∧ s ≠ "" ∧ strContainsSub s m = true) ∨
     (∃ l, r.authkeywords = some l ∧ m ∈ l))

/-- The Boolean any-over-parts test matches its propositional reading. -/
theorem abParts_any_iff (r : Record) (m : String) :
    (abParts r).any (partContains m) = true ↔
      ((∃ s, r.abstract = some s ∧ s ≠ "" ∧ strContainsSub s m = true) ∨
       (∃ l, r.authkeywords = some l ∧ m ∈ l ∧ l ≠ [])) := by
  unfold abParts
  cases habs : r.abstract with
  | none =>
    cases hkw : r.authkeywords with
    | none => simp [partContains]
    | some l =>
      by_cases hl : l = []
      · simp [partContains, hl]
      · simp [partContains, hl, List.elem_iff]
  | some s =>
    by_cases hs : s = ""
    · cases hkw : r.authkeywords with
      | none => simp [partContains, hs]
      | some l =>
        by_cases hl : l = []
        · simp [partContains, hs, hl]
        · simp [partContains, hs, hl, List.elem_iff]
    · cases hkw : r.authkeywords with
      | none => simp [partContains, hs]
      | some l =>
        by_cases hl : l = []
        · simp [partContains, hs, hl]
        · simp [partContains, hs, hl, List.elem_iff]

/-- The record-level Boolean keep test matches the corrected condition. -/
theorem methodologyKeeps_iff (methodologies : List String) (r : Record) :
    methodologyKeeps methodologies r = true ↔ methodologyKeepSpec methodologies r := by
  unfold methodologyKeeps methodologyKeepSpec
  rw [List.any_eq_true]
  constructor
  · rintro ⟨m, hmem, htruthy⟩
    rw [List.mem_filter] at hmem
    refine ⟨m, hmem.1, ?_, ?_⟩
    · simpa using htruthy
    · rcases (abParts_any_iff r m).mp hmem.2 with h | ⟨l, hl, hml, _⟩
      · exact Or.inl h
      · exact Or.inr ⟨l, hl, hml⟩
  · rintro ⟨m, hmem, hne, hcase⟩
    refine ⟨m, ?_, by simpa using hne⟩
    rw [List.mem_filter]
    refine ⟨hmem, (abParts_any_iff r m).mpr ?_⟩
    rcases hcase with h | ⟨l, hl, hml⟩
    · exact Or.inl h
    · exact Or.inr ⟨l, hl, hml, List.ne_nil_of_mem hml⟩

/-- C3 amended.  For every non-empty term list, the methodology stage
keeps a record iff some non-empty term is a case-sensitive substring of
the record's abstract text or is exactly equal to one of the record's
author keywords (the claim's "substring of the concatenated keyword text"
is corrected to exact keyword equality). -/
theorem methodology_filter_keeps_iff (methodologies : List String)
    (abstracts : List Record) (r : Record) (h : methodologies ≠ []) :
    r ∈ filterByMethodologies abstracts methodologies ↔
      r ∈ abstracts ∧ methodologyKeepSpec methodologies r := by
  unfold filterByMethodologies
  rw [if_neg (by simpa using h)]
  rw [List.mem_filter, methodologyKeeps_iff]

/-- C3 amended, witness: the corrected condition applied at a concrete
record kept through its abstract text. -/
theorem methodology_filter_keeps_iff_witness :
    (["EEG"] : List String) ≠ [] ∧
    (recA ∈ filterByMethodologies [recA] ["EEG"] ↔
      recA ∈ [recA] ∧ methodologyKeepSpec ["EEG"] recA) :=
  ⟨by decide, methodology_filter_keeps_iff ["EEG"] [recA] recA (by decide)⟩

/-! ## Shared lemmas about the subject-area stage -/

/-- A successful dict increment leaves the key list unchanged. -/
theorem dictIncr_ok_keys : ∀ (d : List (String × Nat)) (key : String)
    (d2 : List (String × Nat)), dictIncr d key = Except.ok d2 →
    d2.map Prod.fst = d.map Prod.fst := by
  intro d
  induction d with
  | nil => intro key d2 h; exact Except.noConfusion h
  | cons kv rest ih =>
    intro key d2 h
    obtain ⟨k, v⟩ := kv
    unfold dictIncr at h
    by_cases hk : k = key
    · rw [if_pos hk] at h
      injection h with h
      rw [← h]
      simp
    · rw [if_neg hk] at h
      cases hrec : dictIncr rest key with
      | ok rest2 =>
        rw [hrec] at h
        injection h with h
        rw [← h]
        simp [ih key rest2 hrec]
      | error e => rw [hrec] at h; exact Except.noConfusion h

/-- Incrementing a missing key is a `KeyError`. -/
theorem dictIncr_error_of_missing : ∀ (d : List (String × Nat)) (key : String),
    key ∉ d.map Prod.fst → exceptIsError (dictIncr d key) = true := by
  intro d
  induction d with
  | nil => intro key _; rfl
  | cons kv rest ih =>
    intro key hmiss
    obtain ⟨k, v⟩ := kv
    have hk : ¬(k = key) := by
      intro hc
      exact hmiss (by rw [hc]; exact List.mem_cons_self _ _)
    unfold dictIncr
    rw [if_neg hk]
    have hrest : key ∉ rest.map Prod.fst := fun hc =>
      hmiss (List.mem_cons_of_mem _ hc)
    cases hrec : dictIncr rest key with
    | ok rest2 =>
      have := ih key hrest
      rw [hrec] at this
      exact absurd this (by simp [exceptIsError])
    | error e => rfl

/-- A successful area-list increment pass leaves the key list unchanged. -/
theorem incrAreas_ok_keys : ∀ (l : List SubjArea) (d d2 : List (String × Nat)),
    incrAreas d l = Except.ok d2 → d2.map Prod.fst = d.map Prod.fst := by
  intro l
  induction l with
  | nil =>
    intro d d2 h
    injection h with h
    rw [h]
  | cons area rest ih =>
    intro d d2 h
    unfold incrAreas at h
    cases hinc : dictIncr d area.abbreviation with
    | ok dB =>
      rw [hinc] at h
      rw [ih dB d2 h]
      exact dictIncr_ok_keys d area.abbreviation dB hinc
    | error e => rw [hinc] at h; exact Except.noConfusion h

/-- If some entry of the area list is outside the dict's keys, the
increment pass fails. -/
theorem incrAreas_error_of_bad : ∀ (l : List SubjArea) (d : List (String × Nat))
    (a : SubjArea), a ∈ l → a.abbreviation ∉ d.map Prod.fst →
    exceptIsError (incrAreas d l) = true := by
  intro l
  induction l with
  | nil => intro d a ha _; exact absurd ha (List.not_mem_nil a)
  | cons area rest ih =>
    intro d a ha hmiss
    unfold incrAreas
    cases hinc : dictIncr d area.abbreviation with
    | ok dB =>
      rcases List.mem_cons.mp ha with heq | htl
      · have := dictIncr_error_of_missing d a.abbreviation hmiss
        rw [heq, hinc] at this
        exact absurd this (by simp [exceptIsError])
      · refine ih dB a htl ?_
        rw [dictIncr_ok_keys d area.abbreviation dB hinc]
        exact hmiss
    | error e => rfl

/-- If some record of the input is excluded and carries an abbreviation
outside the dict's keys, the subject-area loop fails. -/
theorem filterBySubjectAreasAux_error_of_bad (chosen : List String) :
    ∀ (abstracts : List Record) (areas : List (String × Nat)) (r : Record),
      r ∈ abstracts →
      r.subject_areas.any (fun area => chosen.contains area.abbreviation) = false →
      (∃ a ∈ r.subject_areas, a.abbreviation ∉ areas.map Prod.fst) →
      exceptIsError (filterBySubjectAreasAux chosen abstracts areas) = true := by
  intro abstracts
  induction abstracts with
  | nil => intro areas r hr _ _; exact absurd hr (List.not_mem_nil r)
  | cons ab rest ih =>
    intro areas r hr hexcl hbad
    unfold filterBySubjectAreasAux
    rcases List.mem_cons.mp hr with heq | htl
    · rw [← heq, hexcl]
      simp only [Bool.false_eq_true, if_false]
      obtain ⟨a, hal, hamiss⟩ := hbad
      cases hinc : incrAreas areas r.subject_areas with
      | ok areasB =>
        have := incrAreas_error_of_bad r.subject_areas areas a hal hamiss
        rw [hinc] at this
        exact absurd this (by simp [exceptIsError])
      | error e => rfl
    · by_cases hc : ab.subject_areas.any (fun area => chosen.contains area.abbreviation) = true
      · rw [if_pos hc]
        have hrest := ih areas r htl hexcl hbad
        cases hrec : filterBySubjectAreasAux chosen rest areas with
        | ok p =>
          rw [hrec] at hrest
          exact absurd hrest (by simp [exceptIsError])
        | error e => rfl
      · rw [if_neg hc]
        cases hinc : incrAreas areas ab.subject_areas with
        | ok areasB =>
          refine ih areasB r htl hexcl ?_
          obtain ⟨a, hal, hamiss⟩ := hbad
          refine ⟨a, hal, ?_⟩
          rw [incrAreas_ok_keys ab.subject_areas areas areasB hinc]
          exact hamiss
        | error e => rfl

/-! ## C9: missing-key lookup at the subject-area stage -/

/-- C9.  If a record dropped at the subject-area stage carries an
abbreviation outside the configured subject-area universe, the histogram
increment is a lookup of a missing dict key and the stage raises an
error. -/
theorem excluded_record_with_unknown_area_raises (abstracts : List Record)
    (subject_areas subject_areas_chosen : List String) (r : Record)
    (hmem : r ∈ abstracts)
    (hexcl : r.subject_areas.any
      (fun area => subject_areas_chosen.contains area.abbreviation) = false)
    (hbad : ∃ a ∈ r.subject_areas, a.abbreviation ∉ subject_areas) :
    exceptIsError (filterBySubjectAreas abstracts subject_areas subject_areas_chosen) = true := by
  unfold filterBySubjectAreas
  refine filterBySubjectAreasAux_error_of_bad subject_areas_chosen abstracts _ r hmem hexcl ?_
  obtain ⟨a, hal, hamiss⟩ := hbad
  refine ⟨a, hal, ?_⟩
  simpa [List.map_map, Function.comp] using hamiss

/-- C9 witness: a concrete excluded record carrying the abbreviation
`XXXX`, outside the universe consisting of `BUSI` alone. -/
theorem excluded_record_with_unknown_area_raises_witness :
    recBadArea ∈ [recBadArea] ∧
    recBadArea.subject_areas.any
      (fun area => (["BUSI"] : List String).contains area.abbreviation) = false ∧
    (∃ a ∈ recBadArea.subject_areas, a.abbreviation ∉ (["BUSI"] : List String)) ∧
    exceptIsError (filterBySubjectAreas [recBadArea] ["BUSI"] ["BUSI"]) = true :=
  ⟨by decide, by decide, by decide,
    excluded_record_with_unknown_area_raises [recBadArea] ["BUSI"] ["BUSI"] recBadArea
      (by decide) (by decide) (by decide)⟩

/-- The records kept by the subject-area loop form a sublist of its
input (the loop only ever appends input records, in input order). -/
theorem filterBySubjectAreasAux_ok_sublist (chosen : List String) :
    ∀ (abstracts : List Record) (areas : List (String × Nat))
      (kept : List Record) (areas2 : List (String × Nat)),
      filterBySubjectAreasAux chosen abstracts areas = Except.ok (kept, areas2) →
      kept.Sublist abstracts := by
  intro abstracts
  induction abstracts with
  | nil =>
    intro areas kept areas2 h
    unfold filterBySubjectAreasAux at h
    injection h with h
    injection h with h1 h2
    rw [← h1]
  | cons ab rest ih =>
    intro areas kept areas2 h
    unfold filterBySubjectAreasAux at h
    by_cases hc : ab.subject_areas.any (fun area => chosen.contains area.abbreviation) = true
    · rw [if_pos hc] at h
      cases hrec : filterBySubjectAreasAux chosen rest areas with
      | ok p =>
        obtain ⟨k2, a2⟩ := p
        rw [hrec] at h
        injection h with h
        injection h with h1 h2
        rw [← h1]
        exact List.Sublist.cons₂ ab (ih areas k2 a2 hrec)
      | error e => rw [hrec] at h; exact Except.noConfusion h
    · rw [if_neg hc] at h
      cases hinc : incrAreas areas ab.subject_areas with
      | ok areasB =>
        rw [hinc] at h
        exact List.Sublist.cons ab (ih areasB kept areas2 h)
      | error e => rw [hinc] at h; exact Except.noConfusion h

/-! ## C10: the pipeline preserves input order -/

/-- C10.  Every stage of `_filter_abstracts` preserves relative record
order: when the pipeline succeeds, the surviving records form a sublist of
the input list (same elements in the same relative order, with omissions
only). -/
theorem pipeline_preserves_order (abstracts : List Record)
    (subject_areas subject_areas_chosen methodologies dois : List String)
    (survivors : List Record) (pc : PapersCount) (areasDict : List (String × Nat))
    (h : filterAbstracts abstracts subject_areas subject_areas_chosen methodologies dois =
      Except.ok (survivors, pc, areasDict)) :
    survivors.Sublist abstracts := by
  unfold filterAbstracts at h
  simp only [] at h
  cases hsa : filterBySubjectAreas
      ((abstracts.filter (fun ab => ab.language == some "eng")).filter
        (fun ab => ab.subtype == some "ar"))
      subject_areas subject_areas_chosen with
  | ok p =>
    obtain ⟨abs3, areas3⟩ := p
    rw [hsa] at h
    injection h with h
    have hs : survivors =
        filterByDois
          (if methodologies.isEmpty then abs3
           else filterByMethodologies abs3 methodologies) dois :=
      (congrArg Prod.fst h).symm
    have h3 : abs3.Sublist abstracts := by
      refine List.Sublist.trans
        (filterBySubjectAreasAux_ok_sublist subject_areas_chosen _ _ abs3 areas3 hsa) ?_
      exact List.Sublist.trans (List.filter_sublist _) (List.filter_sublist _)
    have h4 : (if methodologies.isEmpty then abs3
        else filterByMethodologies abs3 methodologies).Sublist abs3 := by
      by_cases hm : methodologies.isEmpty = true
      · rw [if_pos hm]
      · rw [if_neg hm]
        unfold filterByMethodologies
        rw [if_neg hm]
        exact List.filter_sublist _
    rw [hs]
    exact List.Sublist.trans (List.filter_sublist _) (List.Sublist.trans h4 h3)
  | error e => rw [hsa] at h; exact Except.noConfusion h

/-- C10 witness: the pipeline at a concrete one-record input. -/
theorem pipeline_preserves_order_witness :
    filterAbstracts [recA] ["BUSI"] ["BUSI"] [] [] =
      Except.ok ([recA],
        { raw := 1, language := 1, doctype := 1, subjectArea := 1,
          methodology := 1, doi := 1 }, [("BUSI", 0)]) ∧
    List.Sublist [recA] [recA] :=
  ⟨by decide,
    pipeline_preserves_order [recA] ["BUSI"] ["BUSI"] [] [] [recA]
      { raw := 1, language := 1, doctype := 1, subjectArea := 1,
        methodology := 1, doi := 1 } [("BUSI", 0)] (by decide)⟩

/-! ## C6: stage counts are non-increasing -/

/-- C6.  The six stage counts recorded by `_filter_abstracts` are
monotonically non-increasing in the fixed stage order raw, language,
document type, subject area, methodology, DOI. -/
theorem stage_counts_monotone (abstracts : List Record)
    (subject_areas subject_areas_chosen methodologies dois : List String)
    (survivors : List Record) (pc : PapersCount) (areasDict : List (String × Nat))
    (h : filterAbstracts abstracts subject_areas subject_areas_chosen methodologies dois =
      Except.ok (survivors, pc, areasDict)) :
    pc.language ≤ pc.raw ∧ pc.doctype ≤ pc.language ∧
    pc.subjectArea ≤ pc.doctype ∧ pc.methodology ≤ pc.subjectArea ∧
    pc.doi ≤ pc.methodology := by
  unfold filterAbstracts at h
  simp only [] at h
  cases hsa : filterBySubjectAreas
      ((abstracts.filter (fun ab => ab.language == some "eng")).filter
        (fun ab => ab.subtype == some "ar"))
      subject_areas subject_areas_chosen with
  | ok p =>
    obtain ⟨abs3, areas3⟩ := p
    rw [hsa] at h
    injection h with h
    have hpc : pc =
        { raw := abstracts.length,
          language := (abstracts.filter (fun ab => ab.language == some "eng")).length,
          doctype := ((abstracts.filter (fun ab => ab.language == some "eng")).filter
            (fun ab => ab.subtype == some "ar")).length,
          subjectArea := abs3.length,
          methodology := (if methodologies.isEmpty then abs3
            else filterByMethodologies abs3 methodologies).length,
          doi := (filterByDois
            (if methodologies.isEmpty then abs3
             else filterByMethodologies abs3 methodologies) dois).length } := by
      injection h with h1 h2
      injection h2 with h2 h3
      rw [← h2]
    rw [hpc]
    refine ⟨List.length_filter_le _ _, List.length_filter_le _ _, ?_, ?_, ?_⟩
    · exact List.Sublist.length_le
        (filterBySubjectAreasAux_ok_sublist subject_areas_chosen _ _ abs3 areas3 hsa)
    · by_cases hm : methodologies.isEmpty = true
      · rw [if_pos hm]
      · rw [if_neg hm]
        unfold filterByMethodologies
        rw [if_neg hm]
        exact List.length_filter_le _ _
    · exact List.length_filter_le _ _
  | error e => rw [hsa] at h; exact Except.noConfusion h

/-- C6 witness: the stage counts at a concrete one-record input. -/
theorem stage_counts_monotone_witness :
    filterAbstracts [recA] ["BUSI"] ["BUSI"] [] ["10.9/z"] =
      Except.ok ([recA],
        { raw := 1, language := 1, doctype := 1, subjectArea := 1,
          methodology := 1, doi := 1 }, [("BUSI", 0)]) ∧
    ((1 : Nat) ≤ 1 ∧ (1 : Nat) ≤ 1 ∧ (1 : Nat) ≤ 1 ∧ (1 : Nat) ≤ 1 ∧ (1 : Nat) ≤ 1) :=
  ⟨by decide,
    stage_counts_monotone [recA] ["BUSI"] ["BUSI"] [] ["10.9/z"] [recA]
      { raw := 1, language := 1, doctype := 1, subjectArea := 1,
        methodology := 1, doi := 1 } [("BUSI", 0)] (by decide)⟩

/-! ## C8: aggregation of a query with no candidate records -/

/-- The freshly initialised histogram carries the value zero for every
abbreviation of the universe. -/
theorem map_snd_init_zero (l : List String) :
    (l.map (fun a => (a, 0))).map Prod.snd = List.replicate l.length 0 := by
  induction l with
  | nil => rfl
  | cons a rest ih => simp [List.replicate, ih]

/-- The pipeline on an empty candidate set: no survivors, all-zero stage
counts, all-zero histogram. -/
theorem filterAbstracts_nil (subject_areas subject_areas_chosen methodologies dois : List String) :
    filterAbstracts [] subject_areas subject_areas_chosen methodologies dois =
      Except.ok ([], PapersCount.zero, subject_areas.map (fun a => (a, 0))) := by
  unfold filterAbstracts filterBySubjectAreas filterBySubjectAreasAux
  simp [filterByDois, filterByMethodologies, PapersCount.zero]

/-- C8.  A query whose candidate record set is empty yields all-zero stage
counts, contributes no row to the master table (hence none to the summary
table, which is a function of the master table), and contributes exactly
one all-zero row to the counts table and exactly one all-zero row to the
areas table. -/
theorem empty_candidate_set_aggregation
    (subject_areas subject_areas_chosen methodologies dois : List String)
    (t : Tables) (theory : String) (paper : Option String) :
    aggregateStep subject_areas subject_areas_chosen methodologies dois t theory paper [] =
      Except.ok
        { master := t.master,
          counts := t.counts ++
            [{ theory := theory, paper := paperOrNA paper, counts := PapersCount.zero }],
          areas := t.areas ++
            [{ theory := theory, paper := paperOrNA paper,
               values := List.replicate subject_areas.length 0 }] } := by
  unfold aggregateStep
  rw [filterAbstracts_nil]
  simp [processAbstracts]
  have h := map_snd_init_zero subject_areas
  rw [List.map_map] at h
  exact h
